import Mathlib

/-!
Verification development for the Workwise Tracker backend's activity
classification and aggregation engine.

The definitions below are shallow embeddings of the pure computational core of
the Python source:
  * `app/api/desktop_analytics.py` — browser detection, window-title
    sub-activity extraction, idle smoothing, gap detection, focus streaks and
    the hierarchical `process_logs` report;
  * `app/api/teams.py` — `classify_activity` and the productivity scoring
    loop of `get_team_productivity`;
  * `app/categorization.py` — `categorize_domain` and its default domain sets.

Modelling conventions:
  * Python strings are Lean `String`s; all character-level operations
    (lowercasing, substring, startswith, endswith, strip) are implemented over
    `List Char` so that they reduce inside the kernel.  They cover the ASCII
    fragment exercised by the repository's data (Python's `str.lower`,
    `str.strip` and `\w` additionally handle non-ASCII code points).
  * Python `datetime` timestamps are modelled as absolute seconds (`Nat`);
    `sorted(logs, key=timestamp)` is modelled by a stable insertion sort.
  * Dict records become structures; a key that may be absent (`smoothed`,
    `after_gap`) becomes a field whose default is the Python `.get` default.
  * Floats appear in the source only in `round((p / denom) * 100)` (an exact
    rational of two integers) and in display-only fields.  The score rounding
    is modelled exactly over integers with Python's round-half-to-even rule.
-/

/-! ## Character-level string primitives -/

/-- Lowercase a string, character by character (Python `str.lower` on ASCII). -/
def strLower (s : String) : String := ⟨s.data.map Char.toLower⟩

/-- Substring containment over character lists (Python `needle in hay`). -/
def charsContain (hay needle : List Char) : Bool :=
  if needle.isPrefixOf hay then true
  else
    match hay with
    | [] => false
    | _ :: t => charsContain t needle

/-- Python `needle in hay` on strings. -/
def strContains (hay needle : String) : Bool := charsContain hay.data needle.data

/-- Python `s.startswith(p)`. -/
def strStarts (s p : String) : Bool := p.data.isPrefixOf s.data

/-- Python `s.endswith(p)`. -/
def strEnds (s p : String) : Bool := p.data.reverse.isPrefixOf s.data.reverse

/-- Python `s.strip()` (whitespace from both ends). -/
def strTrim (s : String) : String :=
  ⟨((s.data.dropWhile Char.isWhitespace).reverse.dropWhile Char.isWhitespace).reverse⟩

/-! ## desktop_analytics.py — configuration and browser detection -/

/-- Known browser name fragments (`BROWSERS` in desktop_analytics.py). -/
def BROWSERS : List String := ["chrome", "firefox", "edge", "safari", "brave", "opera", "arc"]

/-- Seconds between agent snapshots (`SNAPSHOT_INTERVAL`). -/
def SNAPSHOT_INTERVAL : Nat := 5

/-- Idle streaks at most this long between same-app activity are smoothed
(`IDLE_SMOOTHING_WINDOW`). -/
def IDLE_SMOOTHING_WINDOW : Nat := 60

/-- Gaps between snapshots longer than this are flagged (`GAP_THRESHOLD`). -/
def GAP_THRESHOLD : Nat := 300

/-- Check whether an app is a web browser (`is_browser`): any browser fragment
occurs in the lowercased app name. -/
def is_browser (app_name : String) : Bool :=
  BROWSERS.any (fun browser => strContains (strLower app_name) browser)

/-! ## desktop_analytics.py — `extract_domain_from_title`

The Python function tries, in order: `rsplit(" - ", 1)` taking the trailing
segment unless it names a browser; `rsplit(" | ", 1)` likewise; a regex search
for `(\w+\.(com|org|io|net|co|app|dev))` (case-insensitive); else the title
truncated to 30 characters. -/

/-- Split a character list around the last occurrence of `sep`
(the effect of Python `hay.rsplit(sep, 1)` when `sep in hay`);
`none` when `sep` does not occur. -/
def splitLastOn (sep : List Char) : List Char → Option (List Char × List Char)
  | [] => none
  | c :: cs =>
    match splitLastOn sep cs with
    | some (b, a) => some (c :: b, a)
    | none =>
      if sep.isPrefixOf (c :: cs) then some ([], (c :: cs).drop sep.length) else none

/-- Characters matched by the regex class `\w` (ASCII fragment). -/
def isWordChar (c : Char) : Bool := c.isAlphanum || c = '_'

/-- Top-level-domain alternatives of the regex, in alternation order. -/
def DOMAIN_EXTS : List String := ["com", "org", "io", "net", "co", "app", "dev"]

/-- Case-insensitive test that `pat` matches an initial segment of `s`. -/
def matchCaseInsensitive : List Char → List Char → Bool
  | [], _ => true
  | _ :: _, [] => false
  | p :: ps, c :: cs => (p.toLower == c.toLower) && matchCaseInsensitive ps cs

/-- First domain extension (in alternation order) matching at the front of `s`;
returns the matched original characters. -/
def matchExtAt (s : List Char) : Option (List Char) :=
  DOMAIN_EXTS.findSome? fun ext =>
    if matchCaseInsensitive ext.data s then some (s.take ext.data.length) else none

/-- Try to match `\w+\.(com|org|io|net|co|app|dev)` starting exactly here. -/
def tryDomainAt (s : List Char) : Option (List Char) :=
  let w := s.takeWhile isWordChar
  if w.isEmpty then none
  else
    match s.drop w.length with
    | '.' :: rest => (matchExtAt rest).map (fun e => w ++ '.' :: e)
    | _ => none

/-- Leftmost match of the domain regex (`re.search` semantics). -/
def findDomainToken : List Char → Option (List Char)
  | [] => none
  | c :: cs => (tryDomainAt (c :: cs)).orElse fun _ => findDomainToken cs

/-- Result of one `rsplit` pattern attempt: the trailing segment, stripped,
unless it names a browser. -/
def sitePattern (sep : List Char) (title : List Char) : Option String :=
  match splitLastOn sep title with
  | some (_, a) =>
    let site := strTrim ⟨a⟩
    if BROWSERS.any (fun browser => strContains (strLower site) browser) then none
    else some site
  | none => none

/-- Extract website/service name from a browser window title
(`extract_domain_from_title`). -/
def extract_domain_from_title (window_title : String) : String :=
  if window_title.data.isEmpty then "Unknown"
  else
    match sitePattern " - ".data window_title.data with
    | some s => s
    | none =>
      match sitePattern " | ".data window_title.data with
      | some s => s
      | none =>
        match findDomainToken window_title.data with
        | some d => ⟨d⟩
        | none => ⟨window_title.data.take 30⟩

/-! ## categorization.py — `categorize_domain` -/

/-- Work-related default domains (`PRODUCTIVE_DOMAINS`). -/
def PRODUCTIVE_DOMAINS : List String :=
  ["github.com", "gitlab.com", "bitbucket.org", "stackoverflow.com",
   "developer.mozilla.org",
   "slack.com", "teams.microsoft.com", "discord.com", "zoom.us",
   "notion.so", "trello.com", "asana.com", "jira.atlassian.com",
   "confluence.atlassian.com", "monday.com", "clickup.com",
   "docs.google.com", "sheets.google.com", "slides.google.com",
   "drive.google.com", "calendar.google.com", "mail.google.com",
   "outlook.office.com", "office.com", "onedrive.com",
   "figma.com", "canva.com", "adobe.com",
   "console.aws.amazon.com", "console.cloud.google.com", "portal.azure.com",
   "vercel.com", "railway.app", "heroku.com",
   "udemy.com", "coursera.org", "linkedin.com/learning"]

/-- Entertainment/social default domains (`DISTRACTION_DOMAINS`). -/
def DISTRACTION_DOMAINS : List String :=
  ["facebook.com", "twitter.com", "x.com", "instagram.com", "tiktok.com",
   "snapchat.com", "pinterest.com",
   "youtube.com", "netflix.com", "hulu.com", "disneyplus.com",
   "primevideo.com", "twitch.tv", "spotify.com",
   "steampowered.com", "epicgames.com", "roblox.com",
   "reddit.com", "9gag.com", "buzzfeed.com",
   "amazon.com", "ebay.com", "etsy.com", "aliexpress.com"]

/-- Result record of `categorize_domain`. -/
structure CatResult where
  domain : String
  category : String
  source : String
deriving DecidableEq

/-- Default-set membership test used by `categorize_domain`: exact match or
is-a-subdomain-of (`domain_lower == d or domain_lower.endswith("." + d)`). -/
def domainMatches (domain_lower d : String) : Bool :=
  domain_lower == d || strEnds domain_lower ("." ++ d)

/-- Categorize a domain (`categorize_domain`).  The process-wide
`_custom_rules` dict is passed explicitly as an association list; the Python
set iterations with early return are membership tests, so list `any` is
equivalent. -/
def categorize_domain (custom_rules : List (String × String)) (domain : String) : CatResult :=
  let domain_lower := strLower domain
  match List.lookup domain_lower custom_rules with
  | some category_type => ⟨domain, category_type, "custom"⟩
  | none =>
    if PRODUCTIVE_DOMAINS.any (domainMatches domain_lower) then
      ⟨domain, "productive", "default"⟩
    else if DISTRACTION_DOMAINS.any (domainMatches domain_lower) then
      ⟨domain, "distraction", "default"⟩
    else ⟨domain, "neutral", "default"⟩

/-! ## teams.py — `classify_activity` and productivity scoring -/

/-- A team classification rule (model of the `TeamAppRule` row: its
`app_pattern`, `category` and `match_type` columns). -/
structure TeamAppRule where
  app_pattern : String
  category : String
  match_type : String
deriving DecidableEq

/-- Rule-list walk of `classify_activity`; `combined` is the precomputed
lowercased `app_name + " " + window_title`. -/
def classifyGo (app_name window_title combined : String) : List TeamAppRule → String
  | [] => "neutral"
  | rule :: rest =>
    let pattern := strLower rule.app_pattern
    let m : Bool :=
      if rule.match_type == "exact" then
        pattern == strLower app_name || pattern == strLower window_title
      else if rule.match_type == "startswith" then
        strStarts (strLower app_name) pattern || strStarts (strLower window_title) pattern
      else
        strContains combined pattern
    if m then rule.category else classifyGo app_name window_title combined rest

/-- Classify one activity log against team rules (`classify_activity`); a
`None` window title reaches the function as `""` via `window_title or ""`. -/
def classify_activity (app_name window_title : String) (rules : List TeamAppRule) : String :=
  classifyGo app_name window_title (strLower (app_name ++ " " ++ window_title)) rules

/-- Python `round` of the exact rational `num / den` (`den > 0`):
round-half-to-even. -/
def pyRoundDiv (num den : Nat) : Nat :=
  let q := num / den
  let r := num % den
  if 2 * r < den then q
  else if den < 2 * r then q + 1
  else if q % 2 = 0 then q else q + 1

/-- One activity log row as read by the scoring loop of
`get_team_productivity` (only `app_name` and `window_title` are consulted;
the query pre-filters to non-idle rows of the member and day). -/
structure ActivityLog where
  app_name : String
  window_title : String
deriving DecidableEq

/-- Seconds per log entry (`INTERVAL` in `get_team_productivity`). -/
def INTERVAL : Nat := 5

/-- Per-member scoring result of `get_team_productivity`. -/
structure MemberStats where
  productive_secs : Nat
  neutral_secs : Nat
  non_productive_secs : Nat
  score : Nat
deriving DecidableEq

/-- One step of the member scoring loop: classify the log and add `INTERVAL`
seconds to the matching bucket (productive / non_productive / else neutral). -/
def tallyLog (rules : List TeamAppRule) (acc : Nat × Nat × Nat) (log : ActivityLog) :
    Nat × Nat × Nat :=
  let category := classify_activity log.app_name log.window_title rules
  if category == "productive" then (acc.1 + INTERVAL, acc.2.1, acc.2.2)
  else if category == "non_productive" then (acc.1, acc.2.1, acc.2.2 + INTERVAL)
  else (acc.1, acc.2.1 + INTERVAL, acc.2.2)

/-- Member half of `get_team_productivity`: accumulate seconds per category and
compute `score = round(productive / (productive + non_productive) * 100)` when
the denominator is positive, else `0`.  (The display-only `top_apps` ranking is
omitted.) -/
def memberStats (logs : List ActivityLog) (rules : List TeamAppRule) : MemberStats :=
  let t := logs.foldl (tallyLog rules) (0, 0, 0)
  let denom := t.1 + t.2.2
  ⟨t.1, t.2.1, t.2.2, if 0 < denom then pyRoundDiv (100 * t.1) denom else 0⟩

/-- Team summary of `get_team_productivity`. -/
structure TeamSummary where
  total_productive_seconds : Nat
  total_neutral_seconds : Nat
  total_non_productive_seconds : Nat
  team_productivity_score : Nat
deriving DecidableEq

/-- Team half of `get_team_productivity`: sum member seconds and re-derive the
team score by the same formula (members are given as their activity-log
batches; team/date lookup and report assembly are I/O and omitted). -/
def get_team_productivity (members : List (List ActivityLog)) (rules : List TeamAppRule) :
    TeamSummary :=
  let sums := members.foldl
    (fun acc logs =>
      let m := memberStats logs rules
      (acc.1 + m.productive_secs, acc.2.1 + m.neutral_secs, acc.2.2 + m.non_productive_secs))
    (0, 0, 0)
  let team_denom := sums.1 + sums.2.2
  ⟨sums.1, sums.2.1, sums.2.2,
    if 0 < team_denom then pyRoundDiv (100 * sums.1) team_denom else 0⟩

example : extract_domain_from_title "Funny Cat Video - YouTube" = "YouTube" := by decide
example : extract_domain_from_title "google.com - Search" = "google.com" := by decide
example : categorize_domain [] "docs.google.com" = ⟨"docs.google.com", "productive", "default"⟩ := by decide
example : categorize_domain [] "sub.docs.google.com" = ⟨"sub.docs.google.com", "productive", "default"⟩ := by decide
example : categorize_domain [("example.com", "distraction")] "example.com" = ⟨"example.com", "distraction", "custom"⟩ := by decide
example : (memberStats (List.replicate 10 ⟨"VS Code", ""⟩) [⟨"code", "productive", "contains"⟩]).score = 100 := by decide

/-! ## desktop_analytics.py — snapshot records and sorting -/

/-- One desktop activity snapshot as the processing pipeline sees it.
`smoothed`, `after_gap` and `gap_seconds` model dict keys that are absent on
input (their defaults are the Python `.get` defaults); `timestamp` is absolute
seconds. -/
structure Snapshot where
  timestamp : Nat
  app_name : String
  window_title : String
  mouse_count : Nat := 0
  key_count : Nat := 0
  is_idle : Bool
  smoothed : Bool := false
  after_gap : Bool := false
  gap_seconds : Nat := 0
deriving DecidableEq

/-- Timestamp order on snapshots (the `key=lambda x: x["timestamp"]` sort
key). -/
def tsLE (a b : Snapshot) : Prop := a.timestamp ≤ b.timestamp

instance : DecidableRel tsLE := fun a b => Nat.decLe a.timestamp b.timestamp

instance : IsTotal Snapshot tsLE := ⟨fun a b => Nat.le_total a.timestamp b.timestamp⟩

instance : IsTrans Snapshot tsLE := ⟨fun _ _ _ h1 h2 => Nat.le_trans h1 h2⟩

/-- Stable sort by timestamp (`sorted(logs, key=lambda x: x["timestamp"])`). -/
def sortLogs (logs : List Snapshot) : List Snapshot :=
  logs.insertionSort tsLE

/-! ## desktop_analytics.py — `detect_gaps` -/

/-- Walk of adjacent pairs in `detect_gaps`: mark the later snapshot of any
pair more than `GAP_THRESHOLD` seconds apart.  (The Python loop reads the
possibly already-marked predecessor, but marking never changes timestamps, so
passing the unmarked predecessor is equivalent.) -/
def markGaps (prev : Snapshot) : List Snapshot → List Snapshot
  | [] => []
  | curr :: rest =>
    let gap := curr.timestamp - prev.timestamp
    (if GAP_THRESHOLD < gap then { curr with after_gap := true, gap_seconds := gap } else curr)
      :: markGaps curr rest

/-- Mark gaps in activity (`detect_gaps`): sort, then flag each snapshot whose
distance to its predecessor exceeds the threshold. -/
def detect_gaps (logs : List Snapshot) : List Snapshot :=
  match sortLogs logs with
  | [] => []
  | x :: xs => x :: markGaps x xs

/-! ## desktop_analytics.py — `smooth_idle_status` -/

/-- Idle-to-active reclassification of one snapshot (`is_idle = False`,
`smoothed = True`). -/
def markSmoothed (s : Snapshot) : Snapshot := { s with is_idle := false, smoothed := true }

/-- The reclassification decision for one maximal idle streak, from the bodies
of the `if streak_seconds <= IDLE_SMOOTHING_WINDOW` branch: the streak is
reclassified when the apps before and after exist, are non-empty (Python
truthiness of `app_before and app_after`) and are equal, or else when the
streak lasts at most 15 seconds. -/
def smoothDecision (prev : Option Snapshot) (streak_length : Nat) (next : Option Snapshot) :
    Bool :=
  let streak_seconds := streak_length * SNAPSHOT_INTERVAL
  if streak_seconds ≤ IDLE_SMOOTHING_WINDOW then
    let same_app : Bool :=
      match prev, next with
      | some p, some q => p.app_name != "" && q.app_name != "" && p.app_name == q.app_name
      | _, _ => false
    same_app || decide (streak_seconds ≤ 15)
  else false

/-- Emit one finished maximal idle streak, reclassified or kept according to
`smoothDecision` (`prev` and `next` are the snapshots around the streak). -/
def resolveStreak (prev : Option Snapshot) (streak : List Snapshot) (next : Option Snapshot) :
    List Snapshot :=
  if streak.isEmpty then []
  else if smoothDecision prev streak.length next then streak.map markSmoothed else streak

/-- The scan of the `while i < n` loop in `smooth_idle_status`: `prev` is the
last active snapshot seen (`None` at the start) and `pending` is the idle
streak accumulated so far; a streak is resolved when the next active snapshot
(its right neighbour) or the end of the batch is reached, which is exactly
when the Python loop has found `streak_end`. -/
def smoothAux (prev : Option Snapshot) (pending : List Snapshot) :
    List Snapshot → List Snapshot
  | [] => resolveStreak prev pending none
  | x :: xs =>
    if x.is_idle then smoothAux prev (pending ++ [x]) xs
    else resolveStreak prev pending (some x) ++ x :: smoothAux (some x) [] xs

/-- Reclassify short idle periods (`smooth_idle_status`): sort by timestamp,
then run the streak scan.  (The Python copy also records an
`original_is_idle` debug key that nothing reads; it is omitted.) -/
def smooth_idle_status (logs : List Snapshot) : List Snapshot :=
  smoothAux none [] (sortLogs logs)

/-! ## desktop_analytics.py — `compute_focus_streaks` -/

/-- Store `max(existing, v)` for `app` in the streak map (defaultdict `int`,
insertion-ordered). -/
def assocMax : List (String × Nat) → String → Nat → List (String × Nat)
  | [], app, v => [(app, v)]
  | (k, old) :: rest, app, v =>
    if k == app then (k, max old v) :: rest else (k, old) :: assocMax rest app v

/-- Python truthiness guard of the commit step: `if current_app and
current_streak > 0`. -/
def commitCond (current_app : Option String) (current_streak : Nat) : Bool :=
  (match current_app with
   | some a => a != ""
   | none => false) && decide (0 < current_streak)

/-- The loop of `compute_focus_streaks`.  `current_app == some app` models the
Python `app == current_app` comparison (false while `current_app` is `None`). -/
def focusGo (streaks : List (String × Nat)) (current_app : Option String)
    (current_streak : Nat) : List Snapshot → List (String × Nat)
  | [] =>
    if commitCond current_app current_streak then
      assocMax streaks (current_app.getD "") current_streak
    else streaks
  | log :: rest =>
    if !log.is_idle && current_app == some log.app_name then
      focusGo streaks current_app (current_streak + SNAPSHOT_INTERVAL) rest
    else
      let streaks' :=
        if commitCond current_app current_streak then
          assocMax streaks (current_app.getD "") current_streak
        else streaks
      focusGo streaks' (some log.app_name) (if log.is_idle then 0 else SNAPSHOT_INTERVAL) rest

/-- Longest consecutive active streak in seconds per app
(`compute_focus_streaks`). -/
def compute_focus_streaks (logs : List Snapshot) : List (String × Nat) :=
  focusGo [] none 0 logs

/-- Dict read with default 0 (`focus_streaks.get(app_name, 0)`). -/
def lookupNat (m : List (String × Nat)) (k : String) : Nat := (List.lookup k m).getD 0

/-! ## desktop_analytics.py — `process_logs` -/

/-- Per-app accumulator of `process_logs` (the `app_data` defaultdict entry). -/
structure AppData where
  count : Nat := 0
  idle_count : Nat := 0
  smoothed_count : Nat := 0
  total_mouse : Nat := 0
  total_keys : Nat := 0
  input_snapshots : Nat := 0
  sub_activities : List (String × Nat) := []
deriving DecidableEq

/-- Increment a sub-activity counter (defaultdict `int`, insertion-ordered). -/
def assocInc : List (String × Nat) → String → List (String × Nat)
  | [], k => [(k, 1)]
  | (a, n) :: rest, k => if a == k then (a, n + 1) :: rest else (a, n) :: assocInc rest k

/-- The per-snapshot updates of the grouping loop of `process_logs`: idle or
active (and smoothed) counts, input totals, and sub-activity tallies. -/
def updateData (log : Snapshot) (d : AppData) : AppData :=
  let d :=
    if log.is_idle then { d with idle_count := d.idle_count + 1 }
    else
      let d := { d with count := d.count + 1 }
      if log.smoothed then { d with smoothed_count := d.smoothed_count + 1 } else d
  let d :=
    if 0 < log.mouse_count || 0 < log.key_count then
      { d with total_mouse := d.total_mouse + log.mouse_count,
               total_keys := d.total_keys + log.key_count,
               input_snapshots := d.input_snapshots + 1 }
    else d
  if log.window_title != "" && !log.is_idle then
    let sub :=
      if is_browser log.app_name then extract_domain_from_title log.window_title
      else ⟨log.window_title.data.take 60⟩
    if sub != "" then { d with sub_activities := assocInc d.sub_activities sub } else d
  else d

/-- Update the entry for key `k` with `f`, inserting a fresh defaultdict entry
at the end on first access (Python dict insertion order). -/
def assocUpd : List (String × AppData) → String → (AppData → AppData) → List (String × AppData)
  | [], k, f => [(k, f {})]
  | (a, d) :: rest, k, f =>
    if a == k then (a, f d) :: rest else (a, d) :: assocUpd rest k f

/-- Group the smoothed snapshots by app name (`app_data` after the loop). -/
def groupApps (logs : List Snapshot) : List (String × AppData) :=
  logs.foldl (fun acc log => assocUpd acc log.app_name (updateData log)) []

/-- Ranking relation of the app list: by active (post-smoothing) snapshot
count, descending (`sorted(app_data.items(), key=lambda x: x[1]["count"],
reverse=True)`; insertion sort over this total preorder is stable like
Python's sort). -/
def appRank (a b : String × AppData) : Prop := b.2.count ≤ a.2.count

instance : DecidableRel appRank := fun a b => Nat.decLe b.2.count a.2.count

instance : IsTotal (String × AppData) appRank :=
  ⟨fun a b => Nat.le_total b.2.count a.2.count⟩

instance : IsTrans (String × AppData) appRank :=
  ⟨fun _ _ _ h1 h2 => Nat.le_trans h2 h1⟩

/-- Ranking relation of the sub-activity list: by occurrence count,
descending. -/
def subRank (a b : String × Nat) : Prop := b.2 ≤ a.2

instance : DecidableRel subRank := fun a b => Nat.decLe b.2 a.2

instance : IsTotal (String × Nat) subRank := ⟨fun a b => Nat.le_total b.2 a.2⟩

instance : IsTrans (String × Nat) subRank := ⟨fun _ _ _ h1 h2 => Nat.le_trans h2 h1⟩

/-- The apps are listed in descending order of active snapshot count. -/
def sortApps (l : List (String × AppData)) : List (String × AppData) :=
  l.insertionSort appRank

/-- One entry of the report's `apps` list.  The display-only `duration` string
and `input_intensity` are omitted (their inputs are still accumulated in
`AppData`); `sub_activities` pairs are (name, duration_seconds). -/
structure AppEntry where
  name : String
  duration_seconds : Nat
  active_seconds : Nat
  is_browser : Bool
  longest_focus_streak_seconds : Nat
  sub_activities : List (String × Nat)
deriving DecidableEq

/-- The report of `process_logs`.  The display-only `date` and `total_hours`
fields are omitted. -/
structure Report where
  total_active_seconds : Nat
  total_idle_seconds : Nat
  raw_active_seconds : Nat
  raw_idle_seconds : Nat
  smoothed_recovered_seconds : Nat
  gap_seconds : Nat
  apps : List AppEntry
deriving DecidableEq

/-- Process activity logs into the hierarchical report (`process_logs`).
The totals accumulated inside the Python output loop are the sums over the
sorted app list. -/
def process_logs (logs : List Snapshot) (interval_seconds : Nat) : Report :=
  if logs.isEmpty then ⟨0, 0, 0, 0, 0, 0, []⟩
  else
    let logs_with_gaps := detect_gaps logs
    let smoothed_logs := smooth_idle_status logs_with_gaps
    let raw_active := logs.countP (fun log => !log.is_idle)
    let raw_idle := logs.countP (fun log => log.is_idle)
    let focus_streaks := compute_focus_streaks smoothed_logs
    let total_gap_seconds :=
      (smoothed_logs.map (fun log => if log.after_gap then log.gap_seconds else 0)).sum
    let sorted_apps := sortApps (groupApps smoothed_logs)
    let apps := sorted_apps.map fun x =>
      let active_seconds := x.2.count * interval_seconds
      let idle_seconds := x.2.idle_count * interval_seconds
      ⟨x.1, active_seconds + idle_seconds, active_seconds, is_browser x.1,
        lookupNat focus_streaks x.1,
        (x.2.sub_activities.insertionSort subRank).map fun s => (s.1, s.2 * interval_seconds)⟩
    ⟨(sorted_apps.map fun x => x.2.count * interval_seconds).sum,
      (sorted_apps.map fun x => x.2.idle_count * interval_seconds).sum,
      raw_active * interval_seconds, raw_idle * interval_seconds,
      (sorted_apps.map fun x => x.2.smoothed_count * interval_seconds).sum,
      total_gap_seconds, apps⟩

/-- Shorthand for building input snapshots in concrete test batches. -/
def snap (ts : Nat) (app : String) (idle : Bool) : Snapshot :=
  { timestamp := ts, app_name := app, window_title := "", is_idle := idle }

example :
    (smooth_idle_status
      ([snap 0 "Editor" false] ++
        (List.range 10).map (fun i => snap (5 + 5 * i) "Editor" true) ++
        [snap 55 "Editor" false])).countP (fun s => s.is_idle) = 0 := by decide

example :
    (smooth_idle_status
      ([snap 0 "Editor" false] ++
        (List.range 20).map (fun i => snap (5 + 5 * i) "Editor" true) ++
        [snap 105 "Browser" false])).countP (fun s => s.is_idle) = 20 := by decide

example :
    (smooth_idle_status
      [snap 0 "Editor" false, snap 5 "X" true, snap 10 "X" true,
       snap 15 "Browser" false]).countP (fun s => s.is_idle) = 0 := by decide

example :
    ((process_logs
      [snap 0 "A" true, snap 5 "A" true, snap 10 "A" true, snap 15 "A" true,
       snap 20 "B" false, snap 25 "B" false] 5).apps.map (fun e => e.name)) = ["B", "A"] := by
  decide

example :
    (smooth_idle_status
      [snap 0 "" false, snap 5 "X" true, snap 10 "X" true, snap 15 "X" true,
       snap 20 "X" true, snap 25 "" false]).map (fun s => s.is_idle) =
      [false, true, true, true, true, false] := by decide

example :
    (detect_gaps [snap 0 "A" false, snap 400 "A" false]).map (fun s => (s.after_gap, s.gap_seconds)) =
      [(false, 0), (true, 400)] := by decide

/-! ## Claim theorems: categorization, title extraction, team scoring -/

/-- C7: browser-title sub-activity extraction yields "YouTube" for
"Funny Cat Video - YouTube" and "google.com" for "google.com - Search"
(the latter because the trailing segment "Search" is skipped and the
domain-regex fallback fires). -/
theorem C7_title_extraction :
    extract_domain_from_title "Funny Cat Video - YouTube" = "YouTube" ∧
    extract_domain_from_title "google.com - Search" = "google.com" := by decide

/-- C5: domain categorization follows custom rule → default productive set →
default distraction set → neutral, with subdomain matching on the default
sets: "docs.google.com" and "sub.docs.google.com" are productive/default, the
custom rule "example.com"→"distraction" wins with source "custom", and any
custom-rule hit overrides the defaults. -/
theorem C5_domain_categorization :
    categorize_domain [] "docs.google.com" = ⟨"docs.google.com", "productive", "default"⟩ ∧
    categorize_domain [] "sub.docs.google.com" =
      ⟨"sub.docs.google.com", "productive", "default"⟩ ∧
    categorize_domain [("example.com", "distraction")] "example.com" =
      ⟨"example.com", "distraction", "custom"⟩ ∧
    categorize_domain [] "youtube.com" = ⟨"youtube.com", "distraction", "default"⟩ ∧
    categorize_domain [] "some-internal-tool.xyz" =
      ⟨"some-internal-tool.xyz", "neutral", "default"⟩ ∧
    ∀ (custom : List (String × String)) (domain cat : String),
      List.lookup (strLower domain) custom = some cat →
      categorize_domain custom domain = ⟨domain, cat, "custom"⟩ := by
  refine ⟨by decide, by decide, by decide, by decide, by decide, ?_⟩
  intro custom domain cat h
  simp [categorize_domain, h]

/-- Witness for C5: the custom-override clause applied to a concrete custom
rule map and a domain that needs lowercasing. -/
theorem C5_domain_categorization_witness :
    List.lookup (strLower "Example.com") [("example.com", "distraction")] = some "distraction" ∧
    categorize_domain [("example.com", "distraction")] "Example.com" =
      ⟨"Example.com", "distraction", "custom"⟩ :=
  ⟨by decide,
    C5_domain_categorization.2.2.2.2.2 [("example.com", "distraction")] "Example.com"
      "distraction" (by decide)⟩

/-- C9: a rule whose `match_type` is neither "exact" nor "startswith" is
evaluated with "contains" semantics (the final `else` of `classify_activity`)
rather than raising an error. -/
theorem C9_unknown_match_type :
    ∀ (app_name window_title pattern category mt : String) (rest : List TeamAppRule),
      mt ≠ "exact" → mt ≠ "startswith" →
      classify_activity app_name window_title (⟨pattern, category, mt⟩ :: rest) =
        classify_activity app_name window_title (⟨pattern, category, "contains"⟩ :: rest) := by
  intro a t p c mt rest h1 h2
  have e1 : (mt == "exact") = false := beq_eq_false_iff_ne.mpr h1
  have e2 : (mt == "startswith") = false := beq_eq_false_iff_ne.mpr h2
  unfold classify_activity classifyGo
  simp only [e1, e2]
  simp

/-- Witness for C9: the unrecognized match_type "regex" behaves as
"contains". -/
theorem C9_unknown_match_type_witness :
    ("regex" : String) ≠ "exact" ∧ ("regex" : String) ≠ "startswith" ∧
    classify_activity "VS Code" "" [⟨"code", "productive", "regex"⟩] =
      classify_activity "VS Code" "" [⟨"code", "productive", "contains"⟩] :=
  ⟨by decide, by decide,
    C9_unknown_match_type "VS Code" "" "code" "productive" "regex" [] (by decide) (by decide)⟩

/-- All-neutral batches put nothing into the productive or non-productive
buckets of the scoring fold. -/
theorem tally_neutral (rules : List TeamAppRule) :
    ∀ (logs : List ActivityLog) (acc : Nat × Nat × Nat),
      (∀ log ∈ logs, classify_activity log.app_name log.window_title rules = "neutral") →
      (logs.foldl (tallyLog rules) acc).1 = acc.1 ∧
        (logs.foldl (tallyLog rules) acc).2.2 = acc.2.2 := by
  intro logs
  induction logs with
  | nil => intro acc _; exact ⟨rfl, rfl⟩
  | cons x xs ih =>
    intro acc h
    have hx := h x (List.mem_cons_self x xs)
    have hstep : tallyLog rules acc x = (acc.1, acc.2.1 + INTERVAL, acc.2.2) := by
      simp [tallyLog, hx]
    rw [List.foldl_cons, hstep]
    exact ih _ (fun l hl => h l (List.mem_cons_of_mem x hl))

/-- C4: the productivity score is `round(productive / (productive +
non_productive) * 100)` when that denominator is positive and 0 otherwise;
neutral seconds never enter the denominator, an all-neutral subject scores 0,
and 10 active "VS Code" snapshots under the single contains-rule "code" score
exactly 100. -/
theorem C4_productivity_score :
    (∀ (members : List (List ActivityLog)) (rules : List TeamAppRule),
      (get_team_productivity members rules).team_productivity_score =
        if 0 < (get_team_productivity members rules).total_productive_seconds +
            (get_team_productivity members rules).total_non_productive_seconds then
          pyRoundDiv (100 * (get_team_productivity members rules).total_productive_seconds)
            ((get_team_productivity members rules).total_productive_seconds +
              (get_team_productivity members rules).total_non_productive_seconds)
        else 0) ∧
    (∀ (logs : List ActivityLog) (rules : List TeamAppRule),
      (∀ log ∈ logs, classify_activity log.app_name log.window_title rules = "neutral") →
      (memberStats logs rules).score = 0) ∧
    (memberStats (List.replicate 10 ⟨"VS Code", ""⟩)
      [⟨"code", "productive", "contains"⟩]).score = 100 := by
  refine ⟨fun members rules => rfl, ?_, by decide⟩
  intro logs rules h
  have ht := tally_neutral rules logs (0, 0, 0) h
  simp only [memberStats, ht.1, ht.2]
  norm_num

/-- Witness for C4: a subject whose single active snapshot matches no rule is
all-neutral and scores 0. -/
theorem C4_productivity_score_witness :
    (∀ log ∈ [(⟨"Notepad", ""⟩ : ActivityLog)],
      classify_activity log.app_name log.window_title ([] : List TeamAppRule) = "neutral") ∧
    (memberStats [⟨"Notepad", ""⟩] ([] : List TeamAppRule)).score = 0 :=
  ⟨by decide, C4_productivity_score.2.1 [⟨"Notepad", ""⟩] [] (by decide)⟩

/-! ## Gap detection lemmas and claim C6 -/

/-- Marking gaps never adds or removes snapshots. -/
theorem markGaps_length (prev : Snapshot) (xs : List Snapshot) :
    (markGaps prev xs).length = xs.length := by
  induction xs generalizing prev with
  | nil => rfl
  | cons c rest ih => simp [markGaps, ih]

/-- Positional characterization of `markGaps`: entry `i` is snapshot `i` of
the input, gap-marked against its predecessor (`prev` for the first entry). -/
theorem markGaps_getElem? (prev : Snapshot) (xs : List Snapshot) (i : Nat) :
    (markGaps prev xs)[i]? =
      ((prev :: xs)[i]?).bind fun p =>
        (xs[i]?).map fun curr =>
          if GAP_THRESHOLD < curr.timestamp - p.timestamp then
            { curr with after_gap := true, gap_seconds := curr.timestamp - p.timestamp }
          else curr := by
  induction xs generalizing prev i with
  | nil => cases i <;> simp [markGaps]
  | cons c rest ih =>
    cases i with
    | zero => simp [markGaps]
    | succ n => simpa [markGaps] using ih c n

/-- Indexing hits list members. -/
theorem memOfGetElem : ∀ {α : Type} {l : List α} {i : Nat} {a : α}, l[i]? = some a → a ∈ l := by
  intro α l
  induction l with
  | nil => intro i a h; simp at h
  | cons x xs ih =>
    intro i a h
    cases i with
    | zero => simp at h; simp [h]
    | succ n => exact List.mem_cons_of_mem x (ih (by simpa using h))

/-- C6: on a timestamp-sorted batch with fresh flags, gap detection keeps
every snapshot in place and marks exactly the snapshots whose distance to
their predecessor exceeds `GAP_THRESHOLD`, annotating them with the measured
gap; a batch with fewer than two snapshots is returned unchanged, so it has no
gaps. -/
theorem C6_gap_detection :
    ∀ logs : List Snapshot,
      List.Sorted tsLE logs →
      (∀ l ∈ logs, l.after_gap = false) →
      (detect_gaps logs).length = logs.length ∧
      (detect_gaps logs)[0]? = logs[0]? ∧
      (∀ i : Nat, ∀ prev ∈ logs[i]?, ∀ curr ∈ logs[i + 1]?,
        (detect_gaps logs)[i + 1]? =
          some (if GAP_THRESHOLD < curr.timestamp - prev.timestamp then
                  { curr with after_gap := true,
                              gap_seconds := curr.timestamp - prev.timestamp }
                else curr)) ∧
      (∀ i : Nat, ∀ prev ∈ logs[i]?, ∀ curr ∈ logs[i + 1]?,
        ∀ out ∈ (detect_gaps logs)[i + 1]?,
        (out.after_gap = true ↔ GAP_THRESHOLD < curr.timestamp - prev.timestamp)) := by
  intro logs hs hf
  have hsort : sortLogs logs = logs := List.Sorted.insertionSort_eq hs
  cases logs with
  | nil =>
    refine ⟨?_, ?_, ?_, ?_⟩ <;> simp [detect_gaps, sortLogs] at *
  | cons x xs =>
    have hd : detect_gaps (x :: xs) = x :: markGaps x xs := by
      unfold detect_gaps
      rw [hsort]
    have hclause3 : ∀ i : Nat, ∀ prev ∈ (x :: xs)[i]?, ∀ curr ∈ (x :: xs)[i + 1]?,
        (detect_gaps (x :: xs))[i + 1]? =
          some (if GAP_THRESHOLD < curr.timestamp - prev.timestamp then
                  { curr with after_gap := true,
                              gap_seconds := curr.timestamp - prev.timestamp }
                else curr) := by
      intro i prev hp curr hc
      rw [Option.mem_def] at hp hc
      rw [hd, List.getElem?_cons_succ, markGaps_getElem?, hp]
      have hxs : xs[i]? = some curr := by simpa using hc
      rw [hxs]
      rfl
    refine ⟨by simp [hd, markGaps_length], by simp [hd], hclause3, ?_⟩
    intro i prev hp curr hc out hout
    rw [Option.mem_def] at hout
    rw [hclause3 i prev hp curr hc] at hout
    have hcurr : curr.after_gap = false := hf curr (memOfGetElem (Option.mem_def.mp hc))
    by_cases hgap : GAP_THRESHOLD < curr.timestamp - prev.timestamp
    · rw [if_pos hgap] at hout
      cases hout
      simpa using hgap
    · rw [if_neg hgap] at hout
      cases hout
      simp [hcurr, hgap]

/-- Witness for C6: a 400-second gap between two snapshots marks the later
snapshot only, with `gap_seconds = 400`. -/
theorem C6_gap_detection_witness :
    List.Sorted tsLE [snap 0 "A" false, snap 400 "A" false] ∧
    (detect_gaps [snap 0 "A" false, snap 400 "A" false])[1]? =
      some (if GAP_THRESHOLD < (snap 400 "A" false).timestamp - (snap 0 "A" false).timestamp then
              { snap 400 "A" false with
                  after_gap := true,
                  gap_seconds := (snap 400 "A" false).timestamp - (snap 0 "A" false).timestamp }
            else snap 400 "A" false) :=
  ⟨by decide,
    (C6_gap_detection [snap 0 "A" false, snap 400 "A" false] (by decide) (by decide)).2.2.1 0
      (snap 0 "A" false) (by decide) (snap 400 "A" false) (by decide)⟩

/-! ## Conservation lemmas for `process_logs` (claim C2) -/

/-- Any single grouping step adds exactly one snapshot to the active+idle
totals of its app entry. -/
theorem updateData_count_idle (log : Snapshot) (d : AppData) :
    (updateData log d).count + (updateData log d).idle_count = d.count + d.idle_count + 1 := by
  unfold updateData
  cases h1 : log.is_idle <;> cases h2 : log.smoothed <;> simp only [h1, h2] <;>
    repeat' split
  all_goals simp
  all_goals omega

/-- Updating one key of the app map increments the overall active+idle total
by one, whether the key is fresh or existing. -/
theorem assocUpd_total (k : String) (f : AppData → AppData)
    (hf : ∀ d, (f d).count + (f d).idle_count = d.count + d.idle_count + 1) :
    ∀ acc : List (String × AppData),
      ((assocUpd acc k f).map fun x => x.2.count + x.2.idle_count).sum =
        ((acc.map fun x => x.2.count + x.2.idle_count).sum) + 1 := by
  intro acc
  induction acc with
  | nil => simpa [assocUpd] using hf {}
  | cons hd tl ih =>
    obtain ⟨a, d⟩ := hd
    unfold assocUpd
    cases h : a == k <;> simp [h, hf d, ih] <;> omega

/-- The grouping fold attributes each snapshot to exactly one bucket. -/
theorem groupApps_total (logs : List Snapshot) :
    ∀ acc : List (String × AppData),
      (((logs.foldl (fun acc log => assocUpd acc log.app_name (updateData log)) acc)).map
        (fun x => x.2.count + x.2.idle_count)).sum =
        ((acc.map fun x => x.2.count + x.2.idle_count).sum) + logs.length := by
  induction logs with
  | nil => intro acc; simp
  | cons x xs ih =>
    intro acc
    rw [List.foldl_cons, ih (assocUpd acc x.app_name (updateData x)),
      assocUpd_total x.app_name (updateData x) (fun d => updateData_count_idle x d) acc]
    simp [List.length_cons]
    omega

/-- Sorting by timestamp preserves the number of snapshots. -/
theorem sortLogs_length (l : List Snapshot) : (sortLogs l).length = l.length :=
  (List.perm_insertionSort tsLE l).length_eq

/-- Gap detection preserves the number of snapshots. -/
theorem detect_gaps_length (logs : List Snapshot) :
    (detect_gaps logs).length = logs.length := by
  rcases hs : sortLogs logs with _ | ⟨x, xs⟩
  · have hl := sortLogs_length logs
    rw [hs] at hl
    unfold detect_gaps
    rw [hs]
    simp at hl ⊢
    omega
  · have hl := sortLogs_length logs
    rw [hs] at hl
    unfold detect_gaps
    rw [hs]
    simp [markGaps_length, ← hl]

/-- Resolving a streak preserves its length. -/
theorem resolveStreak_length (prev next : Option Snapshot) (s : List Snapshot) :
    (resolveStreak prev s next).length = s.length := by
  unfold resolveStreak
  split
  · next h => simp [List.isEmpty_iff.mp h]
  · split <;> simp

/-- The smoothing scan emits exactly the pending streak plus the remaining
input. -/
theorem smoothAux_length (l : List Snapshot) :
    ∀ (prev : Option Snapshot) (pending : List Snapshot),
      (smoothAux prev pending l).length = pending.length + l.length := by
  induction l with
  | nil => intro prev pending; simp [smoothAux, resolveStreak_length]
  | cons x xs ih =>
    intro prev pending
    unfold smoothAux
    cases h : x.is_idle <;> simp [h, ih, resolveStreak_length] <;> omega

/-- Idle smoothing preserves the number of snapshots. -/
theorem smooth_idle_status_length (logs : List Snapshot) :
    (smooth_idle_status logs).length = logs.length := by
  unfold smooth_idle_status
  rw [smoothAux_length]
  simp [sortLogs_length]

/-- Every snapshot is counted once: actives plus idles make the whole batch. -/
theorem countP_idle_split (l : List Snapshot) :
    l.countP (fun s => !s.is_idle) + l.countP (fun s => s.is_idle) = l.length := by
  induction l with
  | nil => rfl
  | cons x xs ih => cases h : x.is_idle <;> simp [List.countP_cons, h] <;> omega

/-- The integer fields of a non-empty report, read off the definition. -/
theorem process_logs_fields (logs : List Snapshot) (I : Nat) (h : logs.isEmpty = false) :
    (process_logs logs I).raw_active_seconds = logs.countP (fun s => !s.is_idle) * I ∧
    (process_logs logs I).raw_idle_seconds = logs.countP (fun s => s.is_idle) * I ∧
    (process_logs logs I).total_active_seconds =
      ((sortApps (groupApps (smooth_idle_status (detect_gaps logs)))).map
        fun x => x.2.count * I).sum ∧
    (process_logs logs I).total_idle_seconds =
      ((sortApps (groupApps (smooth_idle_status (detect_gaps logs)))).map
        fun x => x.2.idle_count * I).sum := by
  refine ⟨?_, ?_, ?_, ?_⟩ <;> simp [process_logs, h]

/-- C2: the report conserves intervals — raw active plus raw idle seconds,
and post-smoothing active plus idle seconds, both equal
`len(snapshots) × interval_seconds`; smoothing reclassifies snapshots but
never creates or destroys intervals. -/
theorem C2_interval_conservation :
    ∀ (logs : List Snapshot) (interval_seconds : Nat),
      (process_logs logs interval_seconds).raw_active_seconds +
          (process_logs logs interval_seconds).raw_idle_seconds =
        logs.length * interval_seconds ∧
      (process_logs logs interval_seconds).total_active_seconds +
          (process_logs logs interval_seconds).total_idle_seconds =
        logs.length * interval_seconds := by
  intro logs I
  cases h : logs.isEmpty with
  | true =>
    have h0 : logs = [] := List.isEmpty_iff.mp h
    subst h0
    simp [process_logs]
  | false =>
    obtain ⟨h1, h2, h3, h4⟩ := process_logs_fields logs I h
    refine ⟨?_, ?_⟩
    · rw [h1, h2, ← Nat.add_mul, countP_idle_split]
    · rw [h3, h4, ← List.sum_map_add]
      simp only [← Nat.add_mul]
      rw [List.sum_map_mul_right]
      have hperm :
          (sortApps (groupApps (smooth_idle_status (detect_gaps logs)))).Perm
            (groupApps (smooth_idle_status (detect_gaps logs))) :=
        List.perm_insertionSort appRank _
      rw [(hperm.map fun x => x.2.count + x.2.idle_count).sum_eq]
      have hgroup := groupApps_total (smooth_idle_status (detect_gaps logs)) []
      rw [show groupApps (smooth_idle_status (detect_gaps logs)) =
        (smooth_idle_status (detect_gaps logs)).foldl
          (fun acc log => assocUpd acc log.app_name (updateData log)) [] from rfl]
      rw [hgroup]
      simp [smooth_idle_status_length, detect_gaps_length]

/-! ## Claim C8: ordering of the apps list -/

/-- Counterexample to C8 as stated: in this batch app "A" has 4 raw snapshots
(all idle, in an unsmoothed streak) and app "B" has 2, yet the report lists
"B" first — the list is not ordered by raw snapshot count descending. -/
theorem C8_counterexample :
    ¬ List.Sorted (fun a b : Nat => b ≤ a)
      ((process_logs
          [snap 0 "A" true, snap 5 "A" true, snap 10 "A" true, snap 15 "A" true,
           snap 20 "B" false, snap 25 "B" false] 5).apps.map fun e =>
        [snap 0 "A" true, snap 5 "A" true, snap 10 "A" true, snap 15 "A" true,
         snap 20 "B" false, snap 25 "B" false].countP fun s => s.app_name == e.name) := by
  decide

/-- C8 amended: the apps list is ordered by each application's post-smoothing
active snapshot count — equivalently by its `active_seconds` — descending
(the sort key is `app_data[name]["count"]`, the active count after smoothing,
not the app's raw snapshot count). -/
theorem C8_app_ordering_amended :
    ∀ (logs : List Snapshot) (interval_seconds : Nat),
      List.Sorted (fun a b : AppEntry => b.active_seconds ≤ a.active_seconds)
        (process_logs logs interval_seconds).apps := by
  intro logs I
  cases h : logs.isEmpty with
  | true => simp [process_logs, h]
  | false =>
    have hs : List.Sorted appRank (sortApps (groupApps (smooth_idle_status (detect_gaps logs)))) :=
      List.sorted_insertionSort appRank _
    simp only [process_logs, h, Bool.false_eq_true, if_false]
    exact List.Pairwise.map _ (fun a b hab => Nat.mul_le_mul_right I hab) hs

/-! ## Idle smoothing lemmas (claims C1, C3, C10) -/

/-- Relation between an input snapshot and its smoothed counterpart:
unchanged, or an idle snapshot reclassified as active. -/
def SmRel (a b : Snapshot) : Prop := b = a ∨ (a.is_idle = true ∧ b = markSmoothed a)

/-- Unchanged lists are pointwise `SmRel`-related. -/
theorem forall₂_smRel_refl (l : List Snapshot) : List.Forall₂ SmRel l l := by
  induction l with
  | nil => exact List.Forall₂.nil
  | cons x xs ih => exact List.Forall₂.cons (Or.inl rfl) ih

/-- Reclassifying an all-idle list is pointwise `SmRel`-related to it. -/
theorem forall₂_smRel_mark (l : List Snapshot) (h : ∀ s ∈ l, s.is_idle = true) :
    List.Forall₂ SmRel l (l.map markSmoothed) := by
  induction l with
  | nil => exact List.Forall₂.nil
  | cons x xs ih =>
    exact List.Forall₂.cons (Or.inr ⟨h x (List.mem_cons_self x xs), rfl⟩)
      (ih fun s hs => h s (List.mem_cons_of_mem x hs))

/-- Resolving an all-idle streak relates it pointwise to its output. -/
theorem resolveStreak_rel (prev next : Option Snapshot) (s : List Snapshot)
    (h : ∀ x ∈ s, x.is_idle = true) :
    List.Forall₂ SmRel s (resolveStreak prev s next) := by
  unfold resolveStreak
  split
  · next he =>
    rw [List.isEmpty_iff.mp he]
    exact List.Forall₂.nil
  · split
    · exact forall₂_smRel_mark s h
    · exact forall₂_smRel_refl s

/-- The smoothing scan relates its input (pending streak plus remaining
snapshots) pointwise to its output. -/
theorem smoothAux_rel (l : List Snapshot) :
    ∀ (prev : Option Snapshot) (pending : List Snapshot),
      (∀ s ∈ pending, s.is_idle = true) →
      List.Forall₂ SmRel (pending ++ l) (smoothAux prev pending l) := by
  induction l with
  | nil =>
    intro prev pending hp
    rw [List.append_nil]
    exact resolveStreak_rel prev none pending hp
  | cons x xs ih =>
    intro prev pending hp
    unfold smoothAux
    cases hx : x.is_idle with
    | true =>
      rw [if_pos rfl]
      have hpx : ∀ s ∈ pending ++ [x], s.is_idle = true := by
        intro s hs
        rcases List.mem_append.mp hs with h | h
        · exact hp s h
        · simp at h
          rw [h]
          exact hx
      have := ih prev (pending ++ [x]) hpx
      simpa [List.append_assoc] using this
    | false =>
      rw [if_neg (by simp)]
      have h1 := resolveStreak_rel prev (some x) pending hp
      have h2 := ih (some x) [] (by simp)
      exact List.rel_append h1 (List.Forall₂.cons (Or.inl rfl) (by simpa using h2))

/-- Smoothing does not change timestamps. -/
theorem smRel_timestamp {a b : Snapshot} (h : SmRel a b) : b.timestamp = a.timestamp := by
  rcases h with rfl | ⟨_, rfl⟩ <;> rfl

/-- Smoothing never makes an active snapshot idle. -/
theorem smRel_active {a b : Snapshot} (h : SmRel a b) (ha : a.is_idle = false) :
    b.is_idle = false := by
  rcases h with rfl | ⟨_, rfl⟩
  · exact ha
  · rfl

/-- Pointwise-related lists have the same timestamp sequence. -/
theorem forall₂_timestamps {l out : List Snapshot} (h : List.Forall₂ SmRel l out) :
    out.map Snapshot.timestamp = l.map Snapshot.timestamp := by
  induction h with
  | nil => rfl
  | cons h1 _ ih => simp [smRel_timestamp h1, ih]

/-- Smoothing can only increase the number of active snapshots. -/
theorem forall₂_countP_active {l out : List Snapshot} (h : List.Forall₂ SmRel l out) :
    l.countP (fun s => !s.is_idle) ≤ out.countP (fun s => !s.is_idle) := by
  induction h with
  | nil => exact Nat.le_refl 0
  | cons h1 _ ih =>
    rename_i a b l1 l2
    rcases h1 with rfl | ⟨hid, rfl⟩
    · simp only [List.countP_cons]
      omega
    · simp only [List.countP_cons, hid, markSmoothed]
      simp
      omega

/-- Pointwise relation read at one index. -/
theorem forall₂_smRel_getElem :
    ∀ {l₁ l₂ : List Snapshot}, List.Forall₂ SmRel l₁ l₂ →
      ∀ (i : Nat) (a : Snapshot), l₁[i]? = some a → ∃ b, l₂[i]? = some b ∧ SmRel a b := by
  intro l₁ l₂ h
  induction h with
  | nil => intro i a ha; simp at ha
  | cons h1 h2 ih =>
    rename_i x y t1 t2
    intro i a ha
    cases i with
    | zero =>
      simp at ha
      exact ⟨y, by simp, ha ▸ h1⟩
    | succ n =>
      simp at ha ⊢
      exact ih n a ha

/-- One step of the scan: the empty input resolves the pending streak. -/
theorem smoothAux_nil (prev : Option Snapshot) (pending : List Snapshot) :
    smoothAux prev pending [] = resolveStreak prev pending none := rfl

/-- One step of the scan: an idle snapshot joins the pending streak. -/
theorem smoothAux_idle_cons (prev : Option Snapshot) (pending : List Snapshot)
    (x : Snapshot) (xs : List Snapshot) (hx : x.is_idle = true) :
    smoothAux prev pending (x :: xs) = smoothAux prev (pending ++ [x]) xs := by
  show (if x.is_idle = true then smoothAux prev (pending ++ [x]) xs
        else resolveStreak prev pending (some x) ++ x :: smoothAux (some x) [] xs) =
      smoothAux prev (pending ++ [x]) xs
  rw [if_pos hx]

/-- One step of the scan: an active snapshot resolves the pending streak and
becomes the new `prev`. -/
theorem smoothAux_active_cons (prev : Option Snapshot) (pending : List Snapshot)
    (x : Snapshot) (hx : x.is_idle = false) (xs : List Snapshot) :
    smoothAux prev pending (x :: xs) =
      resolveStreak prev pending (some x) ++ x :: smoothAux (some x) [] xs := by
  show (if x.is_idle = true then smoothAux prev (pending ++ [x]) xs
        else resolveStreak prev pending (some x) ++ x :: smoothAux (some x) [] xs) =
      resolveStreak prev pending (some x) ++ x :: smoothAux (some x) [] xs
  rw [if_neg (by simp [hx])]

/-- An all-idle block at the front of the input is absorbed into the pending
streak. -/
theorem smoothAux_idle_accum :
    ∀ S : List Snapshot, (∀ s ∈ S, s.is_idle = true) →
      ∀ (l : List Snapshot) (prev : Option Snapshot) (pending : List Snapshot),
        smoothAux prev pending (S ++ l) = smoothAux prev (pending ++ S) l := by
  intro S
  induction S with
  | nil => intro _ l prev pending; simp
  | cons x xs ih =>
    intro h l prev pending
    have hx : x.is_idle = true := h x (List.mem_cons_self x xs)
    rw [List.cons_append, smoothAux_idle_cons prev pending x (xs ++ l) hx,
      ih (fun s hs => h s (List.mem_cons_of_mem x hs)) l prev (pending ++ [x])]
    simp [List.append_assoc]

/-- An empty streak resolves to nothing. -/
theorem resolveStreak_nil (prev next : Option Snapshot) :
    resolveStreak prev [] next = [] := rfl

/-- A non-empty streak resolves according to the smoothing decision. -/
theorem resolveStreak_of_ne_nil (prev next : Option Snapshot) (S : List Snapshot)
    (hS : S ≠ []) :
    resolveStreak prev S next =
      if smoothDecision prev S.length next then S.map markSmoothed else S := by
  have h : ¬ (S.isEmpty = true) := by simp [List.isEmpty_iff, hS]
  unfold resolveStreak
  rw [if_neg h]

/-- The scan leaves an all-active list unchanged. -/
theorem smoothAux_all_active :
    ∀ A : List Snapshot, (∀ a ∈ A, a.is_idle = false) →
      ∀ prev : Option Snapshot, smoothAux prev [] A = A := by
  intro A
  induction A with
  | nil => intro _ prev; rfl
  | cons x xs ih =>
    intro h prev
    rw [smoothAux_active_cons prev [] x (h x (List.mem_cons_self x xs)) xs,
      resolveStreak_nil, ih (fun a ha => h a (List.mem_cons_of_mem x ha)) (some x)]
    rfl

/-- The head left after dropping the idle run is active. -/
theorem head_dropWhile_idle (p : Snapshot → Bool) :
    ∀ l : List Snapshot, ∀ r ∈ (l.dropWhile p).head?, p r = false := by
  intro l
  induction l with
  | nil => intro r hr; simp [List.dropWhile] at hr
  | cons x xs ih =>
    intro r hr
    rw [List.dropWhile_cons] at hr
    by_cases h : p x = true
    · rw [if_pos h] at hr
      exact ih r hr
    · rw [if_neg h] at hr
      simp at hr
      rw [← hr]
      simpa using h

/-- The scan distributes over a block that ends in an active snapshot: the
block is processed on its own, and the remainder starts fresh with the block's
last snapshot as `prev`. -/
theorem smoothAux_append_last_active :
    ∀ P : List Snapshot, P ≠ [] → (∀ last ∈ P.getLast?, last.is_idle = false) →
      ∀ (rest : List Snapshot) (prev : Option Snapshot) (pending : List Snapshot),
        smoothAux prev pending (P ++ rest) =
          smoothAux prev pending P ++ smoothAux P.getLast? [] rest := by
  intro P
  induction P with
  | nil => intro h; exact absurd rfl h
  | cons x P' ih =>
    intro _ hlast rest prev pending
    rcases hP' : P' with _ | ⟨y, P''⟩
    · subst hP'
      have hx : x.is_idle = false := by
        have := hlast x
        simp at this
        exact this
      rw [List.singleton_append, smoothAux_active_cons prev pending x hx rest,
        smoothAux_active_cons prev pending x hx [], smoothAux_nil, resolveStreak_nil]
      simp [List.append_assoc]
    · subst hP'
      have hPne : (y :: P'' : List Snapshot) ≠ [] := by simp
      have hlast2 : ∀ last ∈ (y :: P'').getLast?, last.is_idle = false := by
        intro last hl
        apply hlast
        rwa [List.getLast?_cons_cons]
      cases hx : x.is_idle with
      | true =>
        rw [List.cons_append, smoothAux_idle_cons prev pending x ((y :: P'') ++ rest) hx,
          smoothAux_idle_cons prev pending x (y :: P'') hx,
          ih hPne hlast2 rest prev (pending ++ [x]), List.getLast?_cons_cons]
      | false =>
        rw [List.cons_append, smoothAux_active_cons prev pending x hx ((y :: P'') ++ rest),
          smoothAux_active_cons prev pending x hx (y :: P''),
          ih hPne hlast2 rest (some x) [], List.getLast?_cons_cons]
        simp [List.append_assoc]

/-- The code's reclassification decision, characterized: the streak fits the
smoothing window and has equal non-empty neighbour apps, or it lasts at most
15 seconds (reachable only inside the window, but 15 s streaks always fit
it). -/
theorem smoothDecision_iff (prev next : Option Snapshot) (len : Nat) :
    smoothDecision prev len next = true ↔
      ((len * SNAPSHOT_INTERVAL ≤ IDLE_SMOOTHING_WINDOW ∧
          ∃ p ∈ prev, ∃ q ∈ next, p.app_name = q.app_name ∧ p.app_name ≠ "") ∨
        len * SNAPSHOT_INTERVAL ≤ 15) := by
  unfold smoothDecision
  by_cases h : len * SNAPSHOT_INTERVAL ≤ IDLE_SMOOTHING_WINDOW
  · rw [if_pos h]
    rcases prev with _ | p
    · simp [h]
    · rcases next with _ | q
      · simp [h]
      · simp only [Bool.or_eq_true, decide_eq_true_eq]
        constructor
        · rintro (hsame | h15)
          · rw [Bool.and_eq_true, Bool.and_eq_true] at hsame
            obtain ⟨⟨ha, hb⟩, hc⟩ := hsame
            exact Or.inl ⟨h, p, Option.mem_def.mpr rfl, q, Option.mem_def.mpr rfl,
              beq_iff_eq.mp hc, bne_iff_ne.mp ha⟩
          · exact Or.inr h15
        · rintro (⟨_, p', hp', q', hq', he, hne⟩ | h15)
          · left
            obtain rfl : p' = p := (Option.some.inj (Option.mem_def.mp hp')).symm
            obtain rfl : q' = q := (Option.some.inj (Option.mem_def.mp hq')).symm
            rw [Bool.and_eq_true, Bool.and_eq_true]
            refine ⟨⟨bne_iff_ne.mpr hne, bne_iff_ne.mpr ?_⟩, beq_iff_eq.mpr he⟩
            rw [← he]
            exact hne
          · right
            exact h15
  · rw [if_neg h]
    have h15 : ¬ (len * SNAPSHOT_INTERVAL ≤ 15) := by
      simp [SNAPSHOT_INTERVAL, IDLE_SMOOTHING_WINDOW] at h ⊢
      omega
    simp [h, h15]

/-- The output segment standing where a maximal idle streak stood is exactly
that streak as resolved against its neighbours. -/
theorem smooth_segment_eq :
    ∀ (P S Q : List Snapshot),
      List.Sorted tsLE (P ++ S ++ Q) →
      S ≠ [] → (∀ s ∈ S, s.is_idle = true) →
      (∀ p ∈ P.getLast?, p.is_idle = false) →
      (∀ q ∈ Q.head?, q.is_idle = false) →
      ((smooth_idle_status (P ++ S ++ Q)).drop P.length).take S.length =
        resolveStreak P.getLast? S Q.head? := by
  intro P S Q hsort hS hidle hlastP hheadQ
  have hunfold : smooth_idle_status (P ++ S ++ Q) = smoothAux none [] (P ++ S ++ Q) := by
    unfold smooth_idle_status sortLogs
    rw [List.Sorted.insertionSort_eq hsort]
  rw [hunfold]
  have key : ∀ prev : Option Snapshot,
      (smoothAux prev [] (S ++ Q)).take S.length = resolveStreak prev S Q.head? := by
    intro prev
    rw [show smoothAux prev [] (S ++ Q) = smoothAux prev S Q from by
      simpa using smoothAux_idle_accum S hidle Q prev []]
    rcases Q with _ | ⟨q, Q'⟩
    · rw [smoothAux_nil]
      conv_lhs =>
        rw [show S.length = (resolveStreak prev S none).length from
          (resolveStreak_length prev none S).symm]
      rw [List.take_length]
      rfl
    · have hq : q.is_idle = false := by
        apply hheadQ
        simp
      rw [smoothAux_active_cons prev S q hq Q']
      exact List.take_left' (resolveStreak_length prev (some q) S)
  rcases hPL : P.getLast? with _ | last
  · have hP : P = [] := by
      cases P with
      | nil => rfl
      | cons a P' => simp [List.getLast?_eq_getLast] at hPL
    subst hP
    simpa using key none
  · have hPne : P ≠ [] := by
      intro h0
      rw [h0] at hPL
      simp at hPL
    rw [List.append_assoc, smoothAux_append_last_active P hPne hlastP (S ++ Q) none [],
      List.drop_left' (by simpa using smoothAux_length P none []), hPL]
    exact key (some last)

/-- C1 amended: a maximal idle streak is reclassified (every snapshot becomes
active with `smoothed = true`) exactly when (1) it lasts at most
`IDLE_SMOOTHING_WINDOW` seconds and both neighbours exist with equal and
non-empty `app_name` (Python truthiness: an empty `app_name` never satisfies
rule (1)), or (2) it lasts at most 15 seconds; every other idle streak is
returned unchanged, still idle. -/
theorem C1_idle_smoothing :
    ∀ (P S Q : List Snapshot),
      List.Sorted tsLE (P ++ S ++ Q) →
      S ≠ [] → (∀ s ∈ S, s.is_idle = true) →
      (∀ p ∈ P.getLast?, p.is_idle = false) →
      (∀ q ∈ Q.head?, q.is_idle = false) →
      ((((S.length * SNAPSHOT_INTERVAL ≤ IDLE_SMOOTHING_WINDOW ∧
            ∃ p ∈ P.getLast?, ∃ q ∈ Q.head?, p.app_name = q.app_name ∧ p.app_name ≠ "") ∨
          S.length * SNAPSHOT_INTERVAL ≤ 15) →
        ((smooth_idle_status (P ++ S ++ Q)).drop P.length).take S.length =
          S.map markSmoothed) ∧
       (¬ ((S.length * SNAPSHOT_INTERVAL ≤ IDLE_SMOOTHING_WINDOW ∧
            ∃ p ∈ P.getLast?, ∃ q ∈ Q.head?, p.app_name = q.app_name ∧ p.app_name ≠ "") ∨
          S.length * SNAPSHOT_INTERVAL ≤ 15) →
        ((smooth_idle_status (P ++ S ++ Q)).drop P.length).take S.length = S)) := by
  intro P S Q hsort hS hidle hlastP hheadQ
  have hseg := smooth_segment_eq P S Q hsort hS hidle hlastP hheadQ
  constructor
  · intro hc
    rw [hseg, resolveStreak_of_ne_nil P.getLast? Q.head? S hS,
      if_pos ((smoothDecision_iff P.getLast? Q.head? S.length).mpr hc)]
  · intro hc
    rw [hseg, resolveStreak_of_ne_nil P.getLast? Q.head? S hS,
      if_neg (fun hd => hc ((smoothDecision_iff P.getLast? Q.head? S.length).mp hd))]

/-- Counterexample to C1 as stated: a 20-second maximal idle streak whose two
neighbours exist and carry equal `app_name`s — but empty ones.  The claim's
rule (1) demands reclassification; the code leaves the streak idle because an
empty `app_name` is falsy in the `app_before and app_after` guard. -/
theorem C1_counterexample :
    (([snap 5 "X" true, snap 10 "X" true, snap 15 "X" true, snap 20 "X" true] :
        List Snapshot).length * SNAPSHOT_INTERVAL ≤ IDLE_SMOOTHING_WINDOW ∧
      ([snap 0 "" false] : List Snapshot).getLast? = some (snap 0 "" false) ∧
      ([snap 25 "" false] : List Snapshot).head? = some (snap 25 "" false) ∧
      (snap 0 "" false).app_name = (snap 25 "" false).app_name) ∧
    ((smooth_idle_status
        ([snap 0 "" false] ++
          [snap 5 "X" true, snap 10 "X" true, snap 15 "X" true, snap 20 "X" true] ++
          [snap 25 "" false])).drop 1).take 4 =
      [snap 5 "X" true, snap 10 "X" true, snap 15 "X" true, snap 20 "X" true] := by
  decide

/-- Witness for C1: a 10-second idle streak between two active "Editor"
snapshots is reclassified in place. -/
theorem C1_idle_smoothing_witness :
    List.Sorted tsLE
      ([snap 0 "Editor" false] ++ [snap 5 "Editor" true, snap 10 "Editor" true] ++
        [snap 15 "Editor" false]) ∧
    (∀ s ∈ ([snap 5 "Editor" true, snap 10 "Editor" true] : List Snapshot),
      s.is_idle = true) ∧
    ((smooth_idle_status
        ([snap 0 "Editor" false] ++ [snap 5 "Editor" true, snap 10 "Editor" true] ++
          [snap 15 "Editor" false])).drop 1).take 2 =
      ([snap 5 "Editor" true, snap 10 "Editor" true] : List Snapshot).map markSmoothed :=
  ⟨by decide, by decide,
    (C1_idle_smoothing [snap 0 "Editor" false] [snap 5 "Editor" true, snap 10 "Editor" true]
        [snap 15 "Editor" false] (by decide) (by decide) (by decide) (by decide)
        (by decide)).1
      (Or.inl ⟨by decide,
        ⟨snap 0 "Editor" false, Option.mem_def.mpr rfl,
          snap 15 "Editor" false, Option.mem_def.mpr rfl, rfl, by decide⟩⟩)⟩

/-- Reclassified streaks are entirely active. -/
theorem mark_all_active (S : List Snapshot) :
    ∀ s ∈ S.map markSmoothed, s.is_idle = false := by
  intro s hs
  rcases List.mem_map.mp hs with ⟨a, _, rfl⟩
  rfl

/-- The last snapshot of a reclassified streak is active. -/
theorem mark_getLast_active (S : List Snapshot) :
    ∀ l ∈ (S.map markSmoothed).getLast?, l.is_idle = false := by
  intro l hl
  rw [List.getLast?_map] at hl
  rcases Option.map_eq_some'.mp (Option.mem_def.mp hl) with ⟨a, _, rfl⟩
  rfl

/-- The smoothing scan is idempotent: re-running it on its own output changes
nothing.  Remaining idle streaks are exactly the original maximal streaks the
decision rejected, with unchanged neighbours, so every decision repeats. -/
theorem smoothAux_idem :
    ∀ (n : Nat) (l : List Snapshot), l.length ≤ n →
      ∀ prev : Option Snapshot,
        smoothAux prev [] (smoothAux prev [] l) = smoothAux prev [] l := by
  intro n
  induction n with
  | zero =>
    intro l hl prev
    have h0 : l = [] := List.eq_nil_of_length_eq_zero (Nat.le_zero.mp hl)
    subst h0
    rfl
  | succ n ih =>
    intro l hl prev
    rcases l with _ | ⟨x, xs⟩
    · rfl
    · have hxs : xs.length ≤ n := by
        simp at hl
        omega
      cases hx : x.is_idle with
      | false =>
        rw [smoothAux_active_cons prev [] x hx xs, resolveStreak_nil, List.nil_append,
          smoothAux_active_cons prev [] x hx (smoothAux (some x) [] xs), resolveStreak_nil,
          List.nil_append, ih xs hxs (some x)]
      | true =>
        have hsplit : x :: xs =
            (x :: xs.takeWhile fun s => s.is_idle) ++ xs.dropWhile fun s => s.is_idle := by
          rw [List.cons_append, List.takeWhile_append_dropWhile]
        have hSidle : ∀ s ∈ x :: xs.takeWhile (fun s => s.is_idle), s.is_idle = true := by
          intro s hs
          rcases List.mem_cons.mp hs with rfl | hs'
          · exact hx
          · exact List.mem_takeWhile_imp hs'
        have hSne : (x :: xs.takeWhile fun s => s.is_idle) ≠ [] := by simp
        have hRlen : (xs.dropWhile fun s => s.is_idle).length ≤ xs.length := by
          have h := congrArg List.length
            (List.takeWhile_append_dropWhile (fun s => s.is_idle) xs)
          rw [List.length_append] at h
          omega
        rw [hsplit, smoothAux_idle_accum _ hSidle _ prev [], List.nil_append]
        rcases hR : xs.dropWhile (fun s => s.is_idle) with _ | ⟨r, R'⟩
        · rw [hR, smoothAux_nil, resolveStreak_of_ne_nil prev none _ hSne]
          by_cases hd :
            smoothDecision prev (x :: xs.takeWhile fun s => s.is_idle).length none = true
          · rw [if_pos hd]
            exact smoothAux_all_active _ (mark_all_active _) prev
          · rw [if_neg hd,
              show smoothAux prev [] (x :: xs.takeWhile fun s => s.is_idle) =
                smoothAux prev [] ((x :: xs.takeWhile fun s => s.is_idle) ++ []) from by
                rw [List.append_nil],
              smoothAux_idle_accum _ hSidle [] prev [], List.nil_append, smoothAux_nil,
              resolveStreak_of_ne_nil prev none _ hSne, if_neg hd]
        · have hract : r.is_idle = false := by
            have h := head_dropWhile_idle (fun s => s.is_idle) xs r
            rw [hR] at h
            simpa using h
          have hR'len : R'.length ≤ n := by
            have h2 : (r :: R').length ≤ xs.length := by
              rw [← hR]
              exact hRlen
            simp at h2
            omega
          rw [hR, smoothAux_active_cons prev _ r hract R']
          by_cases hd :
            smoothDecision prev (x :: xs.takeWhile fun s => s.is_idle).length (some r) = true
          · rw [resolveStreak_of_ne_nil prev (some r) _ hSne, if_pos hd,
              smoothAux_append_last_active _ (by simp) (mark_getLast_active _)
                (r :: smoothAux (some r) [] R') prev [],
              smoothAux_all_active _ (mark_all_active _) prev,
              smoothAux_active_cons _ [] r hract (smoothAux (some r) [] R'), resolveStreak_nil,
              List.nil_append, ih R' hR'len (some r)]
          · rw [resolveStreak_of_ne_nil prev (some r) _ hSne, if_neg hd,
              smoothAux_idle_accum _ hSidle (r :: smoothAux (some r) [] R') prev [],
              List.nil_append,
              smoothAux_active_cons prev _ r hract (smoothAux (some r) [] R'),
              resolveStreak_of_ne_nil prev (some r) _ hSne, if_neg hd, ih R' hR'len (some r)]

/-- The smoothing scan preserves sortedness (it never changes timestamps). -/
theorem smooth_out_sorted (l : List Snapshot) (hs : List.Sorted tsLE l) :
    List.Sorted tsLE (smoothAux none [] l) := by
  have hrel := smoothAux_rel l none [] (by simp)
  have hts := forall₂_timestamps (show List.Forall₂ SmRel l (smoothAux none [] l) by
    simpa using hrel)
  have h1 : List.Pairwise (fun a b : Nat => a ≤ b) (l.map Snapshot.timestamp) :=
    List.pairwise_map.mpr hs
  rw [← hts] at h1
  exact (@List.pairwise_map Snapshot Nat Snapshot.timestamp (fun a b => a ≤ b)
    (smoothAux none [] l)).mp h1

/-- C3: idle smoothing is idempotent — applying `smooth_idle_status` to its
own output leaves the `is_idle` and `smoothed` flags of every snapshot as
they were after the first application. -/
theorem C3_smoothing_idempotent :
    ∀ logs : List Snapshot,
      (smooth_idle_status (smooth_idle_status logs)).map (fun s => (s.is_idle, s.smoothed)) =
        (smooth_idle_status logs).map fun s => (s.is_idle, s.smoothed) := by
  intro logs
  have hfull : smooth_idle_status (smooth_idle_status logs) = smooth_idle_status logs := by
    have hs1 : List.Sorted tsLE (sortLogs logs) := List.sorted_insertionSort tsLE logs
    have hs2 : List.Sorted tsLE (smooth_idle_status logs) := by
      unfold smooth_idle_status
      exact smooth_out_sorted _ hs1
    show smoothAux none [] (sortLogs (smooth_idle_status logs)) = smooth_idle_status logs
    rw [show sortLogs (smooth_idle_status logs) = smooth_idle_status logs from
      List.Sorted.insertionSort_eq hs2]
    show smoothAux none [] (smoothAux none [] (sortLogs logs)) = smoothAux none [] (sortLogs logs)
    exact smoothAux_idem (sortLogs logs).length _ (Nat.le_refl _) none
  rw [hfull]

/-- C10: smoothing is monotone on activity — on a timestamp-sorted batch, a
snapshot that is active before smoothing is still active at the same position
after it, and for every batch the post-smoothing active count is at least the
raw active count. -/
theorem C10_smoothing_monotone :
    (∀ logs : List Snapshot, List.Sorted tsLE logs →
      ∀ i : Nat, logs[i]?.map Snapshot.is_idle = some false →
        (smooth_idle_status logs)[i]?.map Snapshot.is_idle = some false) ∧
    (∀ logs : List Snapshot,
      logs.countP (fun s => !s.is_idle) ≤
        (smooth_idle_status logs).countP fun s => !s.is_idle) := by
  constructor
  · intro logs hs i hidle
    have hrel : List.Forall₂ SmRel logs (smooth_idle_status logs) := by
      unfold smooth_idle_status
      rw [show sortLogs logs = logs from List.Sorted.insertionSort_eq hs]
      simpa using smoothAux_rel logs none [] (by simp)
    rcases hli : logs[i]? with _ | a
    · rw [hli] at hidle
      simp at hidle
    · rw [hli] at hidle
      simp at hidle
      obtain ⟨b, hb, hab⟩ := forall₂_smRel_getElem hrel i a hli
      rw [hb]
      simp [smRel_active hab hidle]
  · intro logs
    have hrel := smoothAux_rel (sortLogs logs) none [] (by simp)
    have hcount := forall₂_countP_active
      (show List.Forall₂ SmRel (sortLogs logs) (smoothAux none [] (sortLogs logs)) by
        simpa using hrel)
    have hperm : ((sortLogs logs).countP fun s => !s.is_idle) =
        logs.countP fun s => !s.is_idle :=
      List.Perm.countP_eq _ (List.perm_insertionSort tsLE logs)
    unfold smooth_idle_status
    omega

/-- Witness for C10: the active first snapshot of a sorted two-snapshot batch
is still active after smoothing. -/
theorem C10_smoothing_monotone_witness :
    List.Sorted tsLE [snap 0 "A" false, snap 5 "A" true] ∧
    ([snap 0 "A" false, snap 5 "A" true] : List Snapshot)[0]?.map Snapshot.is_idle =
      some false ∧
    (smooth_idle_status [snap 0 "A" false, snap 5 "A" true])[0]?.map Snapshot.is_idle =
      some false :=
  ⟨by decide, by decide, C10_smoothing_monotone.1 [snap 0 "A" false, snap 5 "A" true]
    (by decide) 0 (by decide)⟩
